import Mathlib

/-!
Verification of the path-canonicalization and recursive-removal core of
`src/src/operations.cpp` (a boost::filesystem operations implementation),
shallowly embedded in Lean.  The POSIX branch of the source is modelled.
The path value type and the raw OS primitives (`::stat`, `::lstat`,
`::readlink`, `::rmdir`, `::unlink`, directory listing) are external
collaborators whose code is not part of the source file; they are modelled
from the specification.  Everything else is translated directly from
`operations.cpp`.
-/

namespace BoostFs

/-- File types of `boost::filesystem::file_type` (operations.hpp taxonomy),
as used by `operations.cpp`. -/
inductive FileType where
  | status_error
  | file_not_found
  | regular_file
  | directory_file
  | symlink_file
  | block_file
  | character_file
  | fifo_file
  | socket_file
  | reparse_file
  | type_unknown
deriving DecidableEq, Repr

/-- POSIX errno values used by the modelled primitives. -/
def ENOENT : Nat := 2
def ENOTDIR : Nat := 20
def EISDIR : Nat := 21
def ENOTEMPTY : Nat := 39

/-- generic errc::no_such_file_or_directory, assigned by canonical on a
missing source (operations.cpp:855-864). -/
def errcNoSuchFile : Nat := 2

/-- not_found_error (operations.cpp:400-403): ENOENT and ENOTDIR mean
"entry absent". -/
def not_found_error (errval : Nat) : Bool :=
  errval = ENOENT || errval = ENOTDIR

/-- Modelled from the spec: the Path Value Type collaborator (section 3 of
the spec: "ordered sequence of elements (root-name?, root-directory?,
relative elements...)").  POSIX paths without root names: a flag for the
root directory and the list of relative elements.  Lexical equality is
equality of the element sequences. -/
structure Path where
  hasRoot : Bool
  comps : List String
deriving DecidableEq, Repr

/-- The empty path, `path()`. -/
def Path.emptyP : Path := ⟨false, []⟩

/-- The filesystem root `/`. -/
def Path.rootAbs : Path := ⟨true, []⟩

/-- POSIX `is_absolute`: the path has a root directory. -/
def Path.isAbsolute (p : Path) : Bool := p.hasRoot

/-- `empty()`: no root directory and no elements. -/
def Path.isEmpty (p : Path) : Bool := !p.hasRoot && p.comps.isEmpty

/-- `root_path()`: the root-directory part of the path (POSIX, no root
names). -/
def Path.rootPath (p : Path) : Path := ⟨p.hasRoot, []⟩

/-- Modelled from the spec: lexical iteration of the Path Value Type.  An
absolute path iterates as the root element "/" followed by its relative
elements; a relative path iterates its elements. -/
def Path.elements (p : Path) : List String :=
  if p.hasRoot then "/" :: p.comps else p.comps

/-- Modelled from the spec: appending one iterated element, `p /= *itr`.
Appending the root element "/" (which only ever happens onto the freshly
cleared result, reproducing `"" /= "/" == "/"`) sets the root flag; any
other element is appended to the element sequence. -/
def Path.appendElem (p : Path) (e : String) : Path :=
  if e = "/" then ⟨true, p.comps⟩ else ⟨p.hasRoot, p.comps ++ [e]⟩

/-- Appending a run of iterated elements, `for (...) q /= *itr`. -/
def Path.appendElems (p : Path) (es : List String) : Path :=
  es.foldl Path.appendElem p

/-- Modelled from the spec: `operator/` concatenation of the Path Value
Type; boost appends the right-hand side's elements after a separator, so
the element sequences concatenate (an empty left-hand side yields the
right-hand side unchanged). -/
def Path.concat (p q : Path) : Path :=
  if !p.hasRoot && p.comps.isEmpty then q
  else ⟨p.hasRoot, p.comps ++ q.comps⟩

/-- Modelled from the spec: `remove_filename()` removes the last element;
removing the filename of the lone root "/" yields the empty path. -/
def Path.removeFilename (p : Path) : Path :=
  match p.comps with
  | [] => ⟨false, []⟩
  | _ => ⟨p.hasRoot, p.comps.dropLast⟩

/-- Number of iterated elements, used as a termination measure. -/
def Path.size (p : Path) : Nat :=
  p.comps.length + (if p.hasRoot then 1 else 0)

/-- One step of the lexical normalizer: skip ".", pop on ".." (kept when
there is nothing to pop on a relative path or the previous kept element is
itself ".."; dropped at the root), otherwise keep the element. -/
def normFold (root : Bool) (acc : List String) (e : String) : List String :=
  if e = "." then acc
  else if e = ".." then
    match acc.getLast? with
    | some l => if l = ".." then acc ++ [".."] else acc.dropLast
    | none => if root then [] else [".."]
  else acc ++ [e]

/-- Modelled from the spec: the Path Value Type's "lexical normalizer that
collapses `.`/`..` without touching the filesystem" (`lexically_normal`). -/
def Path.lexicallyNormal (p : Path) : Path :=
  ⟨p.hasRoot, p.comps.foldl (normFold p.hasRoot) []⟩

/-- Length of the longest common leading sequence of two element lists. -/
def commonLen : List String → List String → Nat
  | a :: as, b :: bs => if a = b then commonLen as bs + 1 else 0
  | _, _ => 0

/-- Modelled from the spec (section 4.3): the "purely lexical relative-path
derivation: find the longest common leading sequence of elements between
the two normalized, absolute paths; the result is one `..` element for
each remaining element of `base` beyond the common prefix, followed by the
remaining elements of `path`" (`lexically_relative`). -/
def Path.lexicallyRelative (p base : Path) : Path :=
  let pe := p.elements
  let be := base.elements
  let k := commonLen pe be
  ⟨false, List.replicate (be.length - k) ".." ++ pe.drop k⟩

/-- A structured filesystem error: operation name, implicated path and
error code, as carried by `filesystem_error` when no error-code slot is
supplied. -/
structure FsError where
  op : String
  p1 : Path
  code : Nat
deriving DecidableEq, Repr

/-- Outcome of a dual-mode operation: a normal return (error slot cleared
when present), a raised structured error (only when no slot is supplied),
an error code assigned into the supplied slot together with the sentinel
value returned, or fuel exhaustion of the embedding (the source's
unbounded symlink-chase loop). -/
inductive Res (α : Type) where
  | ok : α → Res α
  | thrown : FsError → Res α
  | ecAssigned : Nat → α → Res α
  | outOfFuel : Res α
deriving DecidableEq, Repr

/-- The dual-mode `error` helper outcome for a path-returning operation:
with a slot, assign the code and return the empty path; without one, raise
the structured error (operations.cpp error-reporting contract). -/
def mkPathErr (useEc : Bool) (op : String) (p : Path) (code : Nat) : Res Path :=
  if useEc then Res.ecAssigned code Path.emptyP else Res.thrown ⟨op, p, code⟩

/-- Modelled from the spec: the external Primitive Query Layer and the
process-wide current directory.  `stat`, `lstat` and `readlink` are the
raw POSIX syscalls: success with a file type (never `file_not_found` and
never `status_error`, which are wrapper-level encodings) or failure with
an errno value. -/
structure Fs where
  cwd : Path
  stat : Path → Except Nat FileType
  lstat : Path → Except Nat FileType
  readlink : Path → Except Nat Path

/-- Result of the `status`/`symlink_status` wrappers
(operations.cpp:1780-1900): success (slot cleared), an errno meaning
not-found (status `file_not_found`; the errno is still assigned into the
slot when one is supplied, but no error is raised), or a genuine failure
(status `status_error`; assigned into the slot, raised as
"boost::filesystem::status" without one). -/
inductive StatRes where
  | okT : FileType → StatRes
  | notFound : Nat → StatRes
  | failed : Nat → StatRes
deriving DecidableEq, Repr

/-- detail::status (operations.cpp:1780-1821) over the raw `::stat`. -/
def statusR (fs : Fs) (q : Path) : StatRes :=
  match fs.stat q with
  | .ok t => .okT t
  | .error e => if not_found_error e then .notFound e else .failed e

/-- detail::symlink_status (operations.cpp:1864-1900) over the raw
`::lstat`. -/
def symlinkStatusR (fs : Fs) (q : Path) : StatRes :=
  match fs.lstat q with
  | .ok t => .okT t
  | .error e => if not_found_error e then .notFound e else .failed e

/-- absolute (operations.cpp:782-832), POSIX branch without root names,
body given an already-absolute base: an empty `p` yields the base, a `p`
with a root directory is returned as is, otherwise the base is prepended. -/
def absoluteCore (absBase p : Path) : Path :=
  if p.isEmpty then absBase
  else if p.hasRoot then p
  else absBase.concat p

/-- absolute (operations.cpp:782-832): a non-absolute base is itself made
absolute against the process current directory first (the source recurses
through `absolute(base)`; one unfolding suffices because the OS guarantees
the current directory is absolute). -/
def absolute (cwd p base : Path) : Path :=
  let absBase := if base.isAbsolute then base else absoluteCore cwd base
  absoluteCore absBase p

/-- Outcome of one scan pass of canonical: the pass completed with the
accumulated result, an unresolved symlink forced a restart on a new
source, or an error ended the call. -/
inductive PassRes where
  | done : Path → PassRes
  | restart : Path → PassRes
  | fail : Res Path → PassRes
deriving DecidableEq, Repr

/-- One scan pass of canonical (operations.cpp:879-925): skip ".", on ".."
remove the last element of the result unless it already equals the root,
otherwise append the element; once the result is absolute, probe its
symlink status ("the current directory on drive C" guard), aborting on a
probe error (with the slot, any assigned errno aborts, including
not-found; without it, not-found merely continues and other errors raise
from within symlink_status); on a symlink, read its target, drop the
link's own element and restart on the recombined source. -/
def canonPass (fs : Fs) (useEc : Bool) (root : Path) :
    List String → Path → PassRes
  | [], result => .done result
  | e :: rest, result =>
    if e = "." then canonPass fs useEc root rest result
    else if e = ".." then
      canonPass fs useEc root rest
        (if result = root then result else result.removeFilename)
    else
      let r1 := result.appendElem e
      if r1.isAbsolute = false then canonPass fs useEc root rest r1
      else
        match symlinkStatusR fs r1 with
        | .notFound err =>
          if useEc then .fail (Res.ecAssigned err Path.emptyP)
          else canonPass fs useEc root rest r1
        | .failed err =>
          if useEc then .fail (Res.ecAssigned err Path.emptyP)
          else .fail (Res.thrown ⟨"boost::filesystem::status", r1, err⟩)
        | .okT t =>
          if t = FileType.symlink_file then
            match fs.readlink r1 with
            | .error err =>
              if useEc then .fail (Res.ecAssigned err Path.emptyP)
              else .fail (Res.thrown ⟨"boost::filesystem::read_symlink", r1, err⟩)
            | .ok link =>
              let r2 := r1.removeFilename
              if link.isAbsolute then .restart (link.appendElems rest)
              else .restart ((r2.concat link).appendElems rest)
          else canonPass fs useEc root rest r1

/-- The restart loop of canonical (operations.cpp:873-926): repeat scan
passes, each on a freshly cleared result, until a pass completes without
an unresolved symlink.  The source loop is unbounded (a cyclic symlink
chain does not terminate); the embedding charges one unit of fuel per
pass. -/
def canonLoop (fs : Fs) (useEc : Bool) (root : Path) :
    Nat → Path → Res Path
  | 0, _ => .outOfFuel
  | fuel + 1, source =>
    match canonPass fs useEc root source.elements Path.emptyP with
    | .done r => .ok r
    | .restart s => canonLoop fs useEc root fuel s
    | .fail r => r

/-- The absolute source canonical resolves (operations.cpp:849). -/
def sourceOf (fs : Fs) (p base : Path) : Path :=
  if p.isAbsolute then p else absolute fs.cwd p base

/-- canonical (operations.cpp:846-932): make the source absolute, fail
up front with no_such_file_or_directory if it does not exist (raising
without an error slot, assigning and returning the empty path with one),
propagate any other status failure, then run the scan loop. -/
def canonical (fs : Fs) (useEc : Bool) (p base : Path) (fuel : Nat) :
    Res Path :=
  let source := sourceOf fs p base
  let root := source.rootPath
  match statusR fs source with
  | .notFound _ =>
    if useEc then Res.ecAssigned errcNoSuchFile Path.emptyP
    else Res.thrown ⟨"boost::filesystem::canonical", source, errcNoSuchFile⟩
  | .failed err =>
    if useEc then Res.ecAssigned err Path.emptyP
    else Res.thrown ⟨"boost::filesystem::canonical", source, err⟩
  | .okT _ => canonLoop fs useEc root fuel source

/-- Result of the existing-prefix search of weakly_canonical: a status
failure at some prefix (the source reports the boolean
`head_status.type() == status_error` through `error`, so the code is 1),
an existing prefix, or no existing prefix at all. -/
inductive HeadRes where
  | statFail : Path → HeadRes
  | found : Path → HeadRes
  | noneFound : HeadRes
deriving DecidableEq, Repr

/-- The head-popping loop of weakly_canonical (operations.cpp:2049-2058):
pop the last element of `head` while its status is not-found; stop at the
first existing prefix, fail on a status error, give up when `head` becomes
empty.  Structural fuel; `p.size + 1` units always suffice. -/
def wcLoopF (fs : Fs) : Nat → Path → HeadRes
  | 0, _ => .noneFound
  | n + 1, head =>
    if head.isEmpty then .noneFound
    else
      match statusR fs head with
      | .failed _ => .statFail head
      | .notFound _ => wcLoopF fs n head.removeFilename
      | .okT _ => .found head

/-- weakly_canonical (operations.cpp:2042-2081): split the path into the
longest existing prefix `head` and the remaining `tail`; with no existing
prefix return the lexical normalization of the whole path; otherwise
canonicalize `head` (against the process current directory) and append
`tail`, normalizing only when the tail contains a dot or dot-dot element. -/
def weakly_canonical (fs : Fs) (useEc : Bool) (p : Path) (fuel : Nat) :
    Res Path :=
  match wcLoopF fs (p.size + 1) p with
  | .statFail hd => mkPathErr useEc "boost::filesystem::weakly_canonical" hd 1
  | .noneFound => .ok p.lexicallyNormal
  | .found hd =>
    let tailComps := p.comps.drop hd.comps.length
    let tailHasDots := tailComps.any (fun e => e = "." || e = "..")
    match canonical fs true hd fs.cwd fuel with
    | .ok ch =>
      if tailComps.isEmpty then .ok ch
      else if tailHasDots then .ok ((ch.concat ⟨false, tailComps⟩).lexicallyNormal)
      else .ok (ch.concat ⟨false, tailComps⟩)
    | .ecAssigned c _ =>
      mkPathErr useEc "boost::filesystem::weakly_canonical" Path.emptyP c
    | .thrown e => .thrown e
    | .outOfFuel => .outOfFuel

/-- relative (operations.cpp:1671-1682): weakly canonicalize `base` and
`p` (each through an internal error slot; a failure is reported as
"boost::filesystem::relative" on `base` and yields the empty path), then
apply the purely lexical relative-path derivation. -/
def relative (fs : Fs) (useEc : Bool) (p base : Path) (fuel : Nat) :
    Res Path :=
  match weakly_canonical fs true base fuel with
  | .ok wcBase =>
    match weakly_canonical fs true p fuel with
    | .ok wcP => .ok (wcP.lexicallyRelative wcBase)
    | .ecAssigned c _ => mkPathErr useEc "boost::filesystem::relative" base c
    | .thrown e => .thrown e
    | .outOfFuel => .outOfFuel
  | .ecAssigned c _ => mkPathErr useEc "boost::filesystem::relative" base c
  | .thrown e => .thrown e
  | .outOfFuel => .outOfFuel

/-- Kinds of entries of the concrete filesystem state used for the removal
engine. -/
inductive NodeKind where
  | regular
  | directory
  | symlinkNode
deriving DecidableEq, Repr

/-- Modelled from the spec: a concrete filesystem state for the Recursive
Removal Engine ("6 depends on 1 only: directory listing + primitive
delete"): entries keyed by path, plus a log of every invocation of a
native deletion primitive (successful or not). -/
structure DirFs where
  entries : List (Path × NodeKind)
  log : List Path
deriving DecidableEq, Repr

/-- The kind stored for a path, if any. -/
def DirFs.lookup (s : DirFs) (q : Path) : Option NodeKind :=
  (s.entries.find? (fun e => e.1 == q)).map (fun e => e.2)

/-- The immediate children of a directory path, in entry order. -/
def DirFs.childrenOf (s : DirFs) (q : Path) : List Path :=
  (s.entries.filter (fun e =>
    e.1.hasRoot == q.hasRoot &&
    e.1.comps.length == q.comps.length + 1 &&
    e.1.comps.take q.comps.length == q.comps)).map (fun e => e.1)

/-- Remove an entry from the state. -/
def DirFs.erase (s : DirFs) (q : Path) : DirFs :=
  ⟨s.entries.filter (fun e => !(e.1 == q)), s.log⟩

/-- Modelled from the spec: the native `::rmdir` primitive
(BOOST_REMOVE_DIRECTORY).  Always logged; fails with ENOENT on a missing
entry, ENOTDIR on a non-directory, ENOTEMPTY on a non-empty directory. -/
def DirFs.rmdirNative (s : DirFs) (q : Path) : Nat × DirFs :=
  let s1 : DirFs := ⟨s.entries, s.log ++ [q]⟩
  match s.lookup q with
  | none => (ENOENT, s1)
  | some NodeKind.directory =>
    if (s.childrenOf q).isEmpty then (0, s1.erase q) else (ENOTEMPTY, s1)
  | some _ => (ENOTDIR, s1)

/-- Modelled from the spec: the native `::unlink` primitive
(BOOST_DELETE_FILE).  Always logged; fails with ENOENT on a missing entry
and EISDIR on a directory; removes a file or the symlink itself. -/
def DirFs.unlinkNative (s : DirFs) (q : Path) : Nat × DirFs :=
  let s1 : DirFs := ⟨s.entries, s.log ++ [q]⟩
  match s.lookup q with
  | none => (ENOENT, s1)
  | some NodeKind.directory => (EISDIR, s1)
  | some _ => (0, s1.erase q)

/-- query_file_type (operations.cpp:550-553, POSIX):
`symlink_status(p).type()`, the entry's type without following a terminal
symlink.  Over this concrete state it never yields `status_error`. -/
def DirFs.query_file_type (s : DirFs) (q : Path) : FileType :=
  match s.lookup q with
  | some NodeKind.regular => .regular_file
  | some NodeKind.directory => .directory_file
  | some NodeKind.symlinkNode => .symlink_file
  | none => .file_not_found

/-- remove_directory (operations.cpp:307-312): `::rmdir`, with a
not-found errno counted as success (filesystem-race mitigation). -/
def remove_directory (s : DirFs) (q : Path) : Bool × Nat × DirFs :=
  let (e, s') := s.rmdirNative q
  (e == 0 || not_found_error e, e, s')

/-- remove_file (operations.cpp:314-318): `::unlink`, with a not-found
errno counted as success (filesystem-race mitigation). -/
def remove_file (s : DirFs) (q : Path) : Bool × Nat × DirFs :=
  let (e, s') := s.unlinkNative q
  (e == 0 || not_found_error e, e, s')

/-- remove_file_or_directory (operations.cpp:321-347): a not-found type is
a successful no-op returning false (slot cleared); a directory dispatches
to remove_directory and anything else to remove_file, reporting a failing
errno as "boost::filesystem::remove" and returning false. -/
def remove_file_or_directory (useEc : Bool) (s : DirFs) (p : Path)
    (t : FileType) : Res Bool × DirFs :=
  if t = FileType.file_not_found then (.ok false, s)
  else if t = FileType.directory_file then
    let (okB, e, s') := remove_directory s p
    if okB then (.ok true, s')
    else if useEc then (.ecAssigned e false, s')
    else (.thrown ⟨"boost::filesystem::remove", p, e⟩, s')
  else
    let (okB, e, s') := remove_file s p
    if okB then (.ok true, s')
    else if useEc then (.ecAssigned e false, s')
    else (.thrown ⟨"boost::filesystem::remove", p, e⟩, s')

/-- remove (operations.cpp:1684-1698): query the non-following type (over
this concrete state the query never fails, so the status_error guard of
operations.cpp:1689 never fires) and dispatch to
remove_file_or_directory. -/
def remove (useEc : Bool) (s : DirFs) (p : Path) : Res Bool × DirFs :=
  let t := s.query_file_type p
  remove_file_or_directory useEc s p t

/-- Modelled from the spec: directory iteration, a finite sequence of
directory entries listed at iterator construction; construction fails with
ENOENT on a missing path and ENOTDIR on a non-directory. -/
def DirFs.listDir (s : DirFs) (q : Path) : Except Nat (List Path) :=
  match s.lookup q with
  | some NodeKind.directory => .ok (s.childrenOf q)
  | some _ => .error ENOTDIR
  | none => .error ENOENT

/-- Outcome of the removal engine: a removed-entry count and the new
state; on an error with a slot, the code plus the count accumulated so
far; a raised structured error without one; or fuel exhaustion of the
embedding (the source recursion is bounded by filesystem depth). -/
inductive RRes where
  | ok : Nat → DirFs → RRes
  | ecErr : Nat → Nat → DirFs → RRes
  | thrown : FsError → DirFs → RRes
  | fuelOut : DirFs → RRes
deriving DecidableEq, Repr

/-- The child loop of remove_all_aux (operations.cpp:365-380): query each
listed entry's non-following type, recurse, accumulate the removed count;
an error aborts immediately with the count accumulated so far. -/
def removeKidsGo (step : DirFs → Path → FileType → RRes) :
    List Path → Nat → DirFs → RRes
  | [], n, s => .ok n s
  | k :: rest, n, s =>
    match step s k (s.query_file_type k) with
    | .ok m s' => removeKidsGo step rest (n + m) s'
    | .ecErr c m s' => .ecErr c (n + m) s'
    | .thrown e s' => .thrown e s'
    | .fuelOut s' => .fuelOut s'

/-- remove_all_aux (operations.cpp:349-388): for a plain directory (not a
directory symlink), list and recursively remove its entries, an iteration
error aborting with the count so far; then delete the entry itself and
count it.  The entry is counted even when remove_file_or_directory was a
not-found no-op; a deletion failure with a slot returns the count without
counting the entry. -/
def remove_all_aux (useEc : Bool) :
    Nat → DirFs → Path → FileType → RRes
  | 0, s, _, _ => .fuelOut s
  | fuel + 1, s, p, t =>
    if t = FileType.directory_file then
      match s.listDir p with
      | .error e =>
        if useEc then .ecErr e 0 s
        else .thrown ⟨"boost::filesystem::directory_iterator::construct", p, e⟩ s
      | .ok kids =>
        match removeKidsGo (remove_all_aux useEc fuel) kids 0 s with
        | .ok n s' =>
          (match remove_file_or_directory useEc s' p t with
           | (.ok _, s2) => .ok (n + 1) s2
           | (.ecAssigned c _, s2) => .ecErr c n s2
           | (.thrown e, s2) => .thrown e s2
           | (.outOfFuel, s2) => .fuelOut s2)
        | r => r
    else
      match remove_file_or_directory useEc s p t with
      | (.ok _, s2) => .ok 1 s2
      | (.ecAssigned c _, s2) => .ecErr c 0 s2
      | (.thrown e, s2) => .thrown e s2
      | (.outOfFuel, s2) => .fuelOut s2

/-- remove_all (operations.cpp:1700-1712): query the non-following type;
recurse through remove_all_aux when the entry exists, otherwise remove
nothing and return 0. -/
def remove_all (useEc : Bool) (fuel : Nat) (s : DirFs) (p : Path) : RRes :=
  let t := s.query_file_type p
  if t ≠ FileType.status_error ∧ t ≠ FileType.file_not_found then
    remove_all_aux useEc fuel s p t
  else .ok 0 s

/-- Decidable equality of primitive results, for concrete evaluation. -/
instance instDecEqExceptP {ε α : Type} [DecidableEq ε] [DecidableEq α] :
    DecidableEq (Except ε α) := fun a b =>
  match a, b with
  | .error e, .error e' =>
    if h : e = e' then isTrue (by rw [h]) else isFalse (fun hc => h (Except.error.inj hc))
  | .ok x, .ok y =>
    if h : x = y then isTrue (by rw [h]) else isFalse (fun hc => h (Except.ok.inj hc))
  | .error _, .ok _ => isFalse (fun hc => Except.noConfusion hc)
  | .ok _, .error _ => isFalse (fun hc => Except.noConfusion hc)

/-- The chain of prefixes probed by the head-popping loop of
weakly_canonical: the path itself, then ever shorter prefixes, down to
(and including) the root or the first relative element. -/
def wcHeadsF : Nat → Path → List Path
  | 0, _ => []
  | n + 1, p => if p.isEmpty then [] else p :: wcHeadsF n p.removeFilename

/-- The full probe chain of weakly_canonical on `p`. -/
def wcHeads (p : Path) : List Path := wcHeadsF (p.size + 1) p

/-- The probe of an absolute accumulated result lets the scan of canonical
continue past it: its symlink status is a non-symlink, or (in the raising
mode only) a not-found errno, which symlink_status converts into a plain
`file_not_found` status. -/
def contOk (fs : Fs) (useEc : Bool) (q : Path) : Prop :=
  (∃ t, fs.lstat q = .ok t ∧ t ≠ FileType.symlink_file)
  ∨ (∃ e, fs.lstat q = .error e ∧ useEc = false ∧ not_found_error e = true)

/-- Element lists produced by the scan of canonical: no dot, dot-dot or
root elements. -/
def CleanComps (cs : List String) : Prop :=
  ∀ e ∈ cs, e ≠ "." ∧ e ≠ ".." ∧ e ≠ "/"

/-- Every absolute prefix of the element list (including the bare root)
lets the scan of canonical continue. -/
def PrefOk (fs : Fs) (useEc : Bool) (cs : List String) : Prop :=
  ∀ k, k ≤ cs.length → contOk fs useEc ⟨true, cs.take k⟩

/-- Concrete filesystem: only the root exists (a directory); dot-dot
chains hitting the root keep resolving to it. -/
def fs1 : Fs where
  cwd := Path.rootAbs
  stat := fun q =>
    if q.hasRoot && q.comps.all (fun e => e == "..") then .ok .directory_file
    else .error ENOENT
  lstat := fun q =>
    if q.hasRoot && q.comps.all (fun e => e == "..") then .ok .directory_file
    else .error ENOENT
  readlink := fun _ => .error 22

/-- Concrete filesystem on which nothing exists at all. -/
def fsNone : Fs where
  cwd := Path.rootAbs
  stat := fun _ => .error ENOENT
  lstat := fun _ => .error ENOENT
  readlink := fun _ => .error 22

/-- Concrete filesystem with a symlink at /a/l whose target is /t. -/
def fs2R : Fs where
  cwd := Path.rootAbs
  stat := fun _ => .ok .directory_file
  lstat := fun q =>
    if q == (⟨true, ["a", "l"]⟩ : Path) then .ok .symlink_file
    else .ok .directory_file
  readlink := fun q =>
    if q == (⟨true, ["a", "l"]⟩ : Path) then .ok ⟨true, ["t"]⟩
    else .error 22

/-- Directory skeleton /a/b/c and /a/b/d/e, all existing directories. -/
def paths3 : List (List String) :=
  [[], ["a"], ["a", "b"], ["a", "b", "c"], ["a", "b", "d"],
   ["a", "b", "d", "e"]]

/-- Membership of an absolute path in a component-list skeleton. -/
def inSet (l : List (List String)) (q : Path) : Bool :=
  q.hasRoot && l.any (fun c => c == q.comps)

/-- Concrete filesystem realizing `paths3`, symlink-free. -/
def fs3 : Fs where
  cwd := Path.rootAbs
  stat := fun q => if inSet paths3 q then .ok .directory_file else .error ENOENT
  lstat := fun q => if inSet paths3 q then .ok .directory_file else .error ENOENT
  readlink := fun _ => .error 22

/-- Concrete filesystem with an existing directory /a under the root. -/
def fs4 : Fs where
  cwd := Path.rootAbs
  stat := fun q => if inSet [[], ["a"]] q then .ok .directory_file else .error ENOENT
  lstat := fun q => if inSet [[], ["a"]] q then .ok .directory_file else .error ENOENT
  readlink := fun _ => .error 22

/-- The directory /d of the recursive-removal scenario. -/
def dP : Path := ⟨true, ["d"]⟩

/-- The file /d/f1. -/
def df1P : Path := ⟨true, ["d", "f1"]⟩

/-- The file /d/f2. -/
def df2P : Path := ⟨true, ["d", "f2"]⟩

/-- The empty subdirectory /d/sub. -/
def dsubP : Path := ⟨true, ["d", "sub"]⟩

/-- Removal scenario state: directory /d containing two files and one
empty subdirectory. -/
def s7 : DirFs :=
  ⟨[(dP, .directory), (df1P, .regular), (df2P, .regular),
    (dsubP, .directory)], []⟩

/-- C1: during the scan of canonical, a dot-dot element removes the last
element of the accumulated result unless the result already equals the
filesystem root, so dot-dot never climbs above the root; in particular
canonical of "/../../.." equals canonical of "/" (and both are "/"). -/
theorem C1_dotdot_root_guard :
    (∀ (fs : Fs) (useEc : Bool) (root result : Path) (rest : List String),
      canonPass fs useEc root (".." :: rest) result =
        canonPass fs useEc root rest
          (if result = root then result else result.removeFilename))
    ∧ canonical fs1 true ⟨true, ["..", "..", ".."]⟩ Path.emptyP 2 =
        canonical fs1 true Path.rootAbs Path.emptyP 2
    ∧ canonical fs1 true ⟨true, ["..", "..", ".."]⟩ Path.emptyP 2 =
        .ok Path.rootAbs :=
  ⟨fun _ _ _ _ _ => rfl, by decide, by decide⟩

/-- C2: whenever the accumulated result (after appending the current
element) is absolute and is a symlink, the scan removes the link's own
element from the result and restarts on a new source: the target followed
by the remaining unscanned elements when the target is absolute, and the
result so far, then the target, then the remaining elements when it is
relative; the loop then re-scans the new source from the beginning. -/
theorem C2_symlink_restart :
    (∀ (fs : Fs) (useEc : Bool) (root result : Path) (e : String)
        (rest : List String) (link : Path),
      e ≠ "." → e ≠ ".." →
      (result.appendElem e).isAbsolute = true →
      fs.lstat (result.appendElem e) = .ok FileType.symlink_file →
      fs.readlink (result.appendElem e) = .ok link →
      canonPass fs useEc root (e :: rest) result =
        .restart (if link.isAbsolute
          then link.appendElems rest
          else (((result.appendElem e).removeFilename).concat link).appendElems rest))
    ∧ (∀ (fs : Fs) (useEc : Bool) (root source s2 : Path) (fuel : Nat),
        canonPass fs useEc root source.elements Path.emptyP = .restart s2 →
        canonLoop fs useEc root (fuel + 1) source = canonLoop fs useEc root fuel s2) := by
  constructor
  · intro fs useEc root result e rest link he1 he2 habs hl hr
    simp only [canonPass, if_neg he1, if_neg he2, habs, symlinkStatusR, hl, hr,
      Bool.true_eq_false, if_false]
    exact (apply_ite PassRes.restart _ _ _).symm
  · intro fs useEc root source s2 fuel h
    simp [canonLoop, h]

/-- C2 witness: on fs2R, scanning the element "l" with accumulated result
/a restarts on /t/x (absolute target /t plus remaining element "x"). -/
theorem C2_symlink_restart_witness :
    canonPass fs2R true Path.rootAbs ["l", "x"] ⟨true, ["a"]⟩ =
      .restart ⟨true, ["t", "x"]⟩ :=
  C2_symlink_restart.1 fs2R true Path.rootAbs ⟨true, ["a"]⟩ "l" ["x"]
    ⟨true, ["t"]⟩ (by decide) (by decide) rfl rfl rfl

/-- C3: when the absolute source does not exist (the up-front status probe
reports a not-found errno), canonical raises a structured
no_such_file_or_directory error when no error slot is supplied, and with a
slot assigns no_such_file_or_directory and returns the empty path. -/
theorem C3_canonical_notfound (fs : Fs) (p base : Path) (fuel err : Nat)
    (h : fs.stat (sourceOf fs p base) = .error err)
    (hnf : not_found_error err = true) :
    canonical fs false p base fuel =
      .thrown ⟨"boost::filesystem::canonical", sourceOf fs p base, errcNoSuchFile⟩
    ∧ canonical fs true p base fuel = .ecAssigned errcNoSuchFile Path.emptyP := by
  have hs : statusR fs (sourceOf fs p base) = .notFound err := by
    simp [statusR, h, hnf]
  constructor <;> simp [canonical, hs]

/-- C3 witness: at the concrete empty filesystem, canonical of "/" raises
the structured not-found error without a slot and assigns it with one. -/
theorem C3_canonical_notfound_witness :
    canonical fsNone false Path.rootAbs Path.emptyP 1 =
      .thrown ⟨"boost::filesystem::canonical", Path.rootAbs, errcNoSuchFile⟩
    ∧ canonical fsNone true Path.rootAbs Path.emptyP 1 =
      .ecAssigned errcNoSuchFile Path.emptyP :=
  C3_canonical_notfound fsNone Path.rootAbs Path.emptyP 1 ENOENT rfl rfl

/-- C7: remove_all returns the total count of entries removed: 0 when the
path does not exist; 4 for a directory holding two files and an empty
subdirectory (the two files, the subdirectory and the directory itself),
leaving no entries behind; and a directory-iteration error aborts
immediately with the count accumulated so far (0 at that node). -/
theorem C7_remove_all_count :
    (∀ (useEc : Bool) (fuel : Nat) (s : DirFs) (p : Path),
      s.query_file_type p = FileType.file_not_found →
      remove_all useEc fuel s p = .ok 0 s)
    ∧ remove_all true 5 s7 dP = .ok 4 ⟨[], [df1P, df2P, dsubP, dP]⟩
    ∧ (∀ (fuel : Nat) (s : DirFs) (p : Path),
        s.lookup p = none →
        remove_all_aux true (fuel + 1) s p FileType.directory_file =
          .ecErr ENOENT 0 s) := by
  refine ⟨?_, by decide, ?_⟩
  · intro useEc fuel s p h
    simp [remove_all, h]
  · intro fuel s p h
    simp [remove_all_aux, DirFs.listDir, h]

/-- C7 witness: removing a missing path returns count 0 and changes
nothing. -/
theorem C7_remove_all_count_witness :
    remove_all true 3 s7 ⟨true, ["zz"]⟩ = .ok 0 s7 :=
  C7_remove_all_count.1 true 3 s7 ⟨true, ["zz"]⟩ (by decide)

/-- C8: remove determines the entry's non-following type; a not-found type
is a successful no-op returning false with no error raised and no error
left in the slot (the state, including the primitive-call log, is
untouched); a not-found errno from the deletion primitive itself (a lost
race, modelled by a stale queried type) is likewise success; a symlink is
deleted as the link itself. -/
theorem C8_remove_tolerant :
    (∀ (useEc : Bool) (s : DirFs) (p : Path),
      s.query_file_type p = FileType.file_not_found →
      remove useEc s p = (.ok false, s))
    ∧ (∀ (useEc : Bool) (s : DirFs) (p : Path),
        s.lookup p = none →
        remove_file_or_directory useEc s p FileType.regular_file =
          (.ok true, ⟨s.entries, s.log ++ [p]⟩))
    ∧ (∀ (useEc : Bool) (s : DirFs) (p : Path),
        s.lookup p = some NodeKind.symlinkNode →
        remove useEc s p =
          (.ok true, ⟨s.entries.filter (fun e => !(e.1 == p)), s.log ++ [p]⟩)) := by
  refine ⟨?_, ?_, ?_⟩
  · intro useEc s p h
    simp [remove, remove_file_or_directory, h]
  · intro useEc s p h
    simp [remove_file_or_directory, remove_file, DirFs.unlinkNative, h,
      not_found_error, ENOENT, ENOTDIR]
  · intro useEc s p h
    simp [remove, DirFs.query_file_type, remove_file_or_directory, remove_file,
      DirFs.unlinkNative, DirFs.erase, h]

/-- C8 witness: removing a missing path from the concrete scenario state
returns false and leaves the state (and primitive log) unchanged. -/
theorem C8_remove_tolerant_witness :
    remove true s7 ⟨true, ["zz"]⟩ = (.ok false, s7) :=
  C8_remove_tolerant.1 true s7 ⟨true, ["zz"]⟩ (by decide)

/-- C10: the recursive removal helper applied to an entry whose queried
type is not-found invokes no deletion primitive (the state, including the
primitive-call log, is returned unchanged) yet still counts the entry,
returning 1; so a racing execution makes remove_all report more entries
than it deleted. -/
theorem C10_vanished_entry_counted :
    ∀ (useEc : Bool) (fuel : Nat) (s : DirFs) (p : Path),
      remove_all_aux useEc (fuel + 1) s p FileType.file_not_found = .ok 1 s := by
  intro useEc fuel s p
  simp [remove_all_aux, remove_file_or_directory]

/-- Removing the filename shrinks the element count of a nonempty path. -/
theorem size_removeFilename_lt (p : Path) (h : p.isEmpty = false) :
    p.removeFilename.size < p.size := by
  rcases p with ⟨r, cs⟩
  cases cs with
  | nil =>
    cases r with
    | true => simp [Path.removeFilename, Path.size]
    | false => simp [Path.isEmpty] at h
  | cons a as =>
    cases r <;>
      simp [Path.removeFilename, Path.size, List.length_dropLast]

/-- With enough fuel, the head-popping loop of weakly_canonical reports
that no prefix exists as soon as every probed prefix has a not-found
status. -/
theorem wcLoopF_none (fs : Fs) :
    ∀ (n : Nat) (p : Path), p.size < n →
      (∀ q ∈ wcHeadsF n p, ∃ e, fs.stat q = .error e ∧ not_found_error e = true) →
      wcLoopF fs n p = .noneFound := by
  intro n
  induction n with
  | zero => intro p hlt; omega
  | succ n ih =>
    intro p hlt hall
    by_cases hp : p.isEmpty = true
    · simp [wcLoopF, hp]
    · have hmem : p ∈ wcHeadsF (n + 1) p := by
        simp [wcHeadsF, hp]
      obtain ⟨e, he, hnf⟩ := hall p hmem
      have hst : statusR fs p = .notFound e := by simp [statusR, he, hnf]
      have hrec : wcLoopF fs (n + 1) p = wcLoopF fs n p.removeFilename := by
        simp [wcLoopF, hp, hst]
      rw [hrec]
      apply ih
      · have hsz := size_removeFilename_lt p (by simpa using hp)
        omega
      · intro q hq
        apply hall
        simp [wcHeadsF, hp]
        exact Or.inr hq

/-- C5: when no probed prefix of the path exists, weakly_canonical
returns the lexical normalization of the whole path with no error; the
outcome only depends on the status probes (not on symlink queries,
readlink, the current directory or the canonicalization fuel), so no
canonicalization and no further disk access happens; concretely,
weakly_canonical of "/nonexistent/sub/dir/../file" on the empty
filesystem is "/nonexistent/sub/file". -/
theorem C5_weak_fallback :
    (∀ (fs : Fs) (useEc : Bool) (p : Path) (fuel : Nat),
      (∀ q ∈ wcHeads p, ∃ e, fs.stat q = .error e ∧ not_found_error e = true) →
      weakly_canonical fs useEc p fuel = .ok p.lexicallyNormal)
    ∧ (∀ (fs fsB : Fs) (useEc : Bool) (p : Path) (fuel fuelB : Nat),
        (∀ q ∈ wcHeads p, ∃ e, fs.stat q = .error e ∧ not_found_error e = true) →
        (∀ q, fsB.stat q = fs.stat q) →
        weakly_canonical fsB useEc p fuelB = .ok p.lexicallyNormal)
    ∧ weakly_canonical fsNone true
        ⟨true, ["nonexistent", "sub", "dir", "..", "file"]⟩ 0 =
        .ok ⟨true, ["nonexistent", "sub", "file"]⟩ := by
  have main : ∀ (fs : Fs) (useEc : Bool) (p : Path) (fuel : Nat),
      (∀ q ∈ wcHeads p, ∃ e, fs.stat q = .error e ∧ not_found_error e = true) →
      weakly_canonical fs useEc p fuel = .ok p.lexicallyNormal := by
    intro fs useEc p fuel hall
    have hl : wcLoopF fs (p.size + 1) p = .noneFound :=
      wcLoopF_none fs (p.size + 1) p (by omega) hall
    simp [weakly_canonical, hl]
  refine ⟨main, ?_, ?_⟩
  · intro fs fsB useEc p fuel fuelB hall hagree
    apply main
    intro q hq
    obtain ⟨e, he, hnf⟩ := hall q hq
    exact ⟨e, by rw [hagree q, he], hnf⟩
  · exact main fsNone true ⟨true, ["nonexistent", "sub", "dir", "..", "file"]⟩ 0
      (fun q _ => ⟨ENOENT, rfl, rfl⟩)

/-- C5 witness: weakly_canonical of "/x/./y" on the empty filesystem,
even with zero canonicalization fuel, is the lexical normalization
"/x/y" with no error. -/
theorem C5_weak_fallback_witness :
    weakly_canonical fsNone false ⟨true, ["x", ".", "y"]⟩ 7 =
      .ok ⟨true, ["x", "y"]⟩ :=
  C5_weak_fallback.1 fsNone false ⟨true, ["x", ".", "y"]⟩ 7
    (fun q _ => ⟨ENOENT, rfl, rfl⟩)

/-- C6: relative equals the purely lexical relative derivation applied to
the weak canonicalizations of path and base, and a failure of either weak
canonicalization propagates (as "boost::filesystem::relative" on the base
path), returning the empty path with no partial result. -/
theorem C6_relative_lexical :
    (∀ (fs : Fs) (useEc : Bool) (p base : Path) (fuel : Nat) (wb wp : Path),
      weakly_canonical fs true base fuel = .ok wb →
      weakly_canonical fs true p fuel = .ok wp →
      relative fs useEc p base fuel = .ok (wp.lexicallyRelative wb))
    ∧ (∀ (fs : Fs) (p base : Path) (fuel c : Nat) (x : Path),
        weakly_canonical fs true base fuel = .ecAssigned c x →
        relative fs true p base fuel = .ecAssigned c Path.emptyP ∧
        relative fs false p base fuel =
          .thrown ⟨"boost::filesystem::relative", base, c⟩)
    ∧ (∀ (fs : Fs) (p base : Path) (fuel c : Nat) (wb x : Path),
        weakly_canonical fs true base fuel = .ok wb →
        weakly_canonical fs true p fuel = .ecAssigned c x →
        relative fs true p base fuel = .ecAssigned c Path.emptyP ∧
        relative fs false p base fuel =
          .thrown ⟨"boost::filesystem::relative", base, c⟩) := by
  refine ⟨?_, ?_, ?_⟩
  · intro fs useEc p base fuel wb wp hb hp
    simp [relative, hb, hp]
  · intro fs p base fuel c x hb
    constructor <;> simp [relative, hb, mkPathErr]
  · intro fs p base fuel c wb x hb hp
    constructor <;> simp [relative, hb, hp, mkPathErr]

/-- C6 witness: with /a/b/c and /a/b/d/e existing on fs3,
relative(/a/b/d/e, /a/b/c) is "../d/e". -/
theorem C6_relative_lexical_witness :
    relative fs3 true ⟨true, ["a", "b", "d", "e"]⟩ ⟨true, ["a", "b", "c"]⟩ 3 =
      .ok ⟨false, ["..", "d", "e"]⟩ :=
  C6_relative_lexical.1 fs3 true ⟨true, ["a", "b", "d", "e"]⟩
    ⟨true, ["a", "b", "c"]⟩ 3 ⟨true, ["a", "b", "c"]⟩
    ⟨true, ["a", "b", "d", "e"]⟩ (by decide) (by decide)

/-- Concatenation onto a rooted path stays rooted. -/
theorem concat_hasRoot (p q : Path) (h : p.hasRoot = true) :
    (p.concat q).hasRoot = true := by
  simp [Path.concat, h]

/-- Appending one element to a rooted path stays rooted. -/
theorem appendElem_hasRoot (p : Path) (e : String) (h : p.hasRoot = true) :
    (p.appendElem e).hasRoot = true := by
  unfold Path.appendElem
  split <;> simp [h]

/-- Appending a run of elements to a rooted path stays rooted. -/
theorem appendElems_hasRoot (es : List String) (p : Path)
    (h : p.hasRoot = true) : (p.appendElems es).hasRoot = true := by
  induction es generalizing p with
  | nil => simpa [Path.appendElems] using h
  | cons e rest ih =>
    exact ih (p.appendElem e) (appendElem_hasRoot p e h)

/-- Removing the filename of a rooted path with at least one element stays
rooted. -/
theorem removeFilename_hasRoot (p : Path) (h : p.hasRoot = true)
    (hc : p.comps ≠ []) : p.removeFilename.hasRoot = true := by
  rcases p with ⟨r, cs⟩
  cases cs with
  | nil => simp at hc
  | cons a as => simpa [Path.removeFilename] using h

/-- The root path of a rooted path is the filesystem root. -/
theorem rootPath_rooted (q : Path) (h : q.hasRoot = true) :
    q.rootPath = Path.rootAbs := by
  simp [Path.rootPath, Path.rootAbs, h]

/-- A successful symlink-status probe comes from a successful lstat. -/
theorem symlinkStatusR_okT (fs : Fs) (q : Path) (t : FileType)
    (h : symlinkStatusR fs q = .okT t) : fs.lstat q = .ok t := by
  unfold symlinkStatusR at h
  cases hl : fs.lstat q
  case error e =>
    rw [hl] at h
    by_cases hnf : not_found_error e = true <;> simp [hnf] at h
  case ok t2 =>
    rw [hl] at h
    simp at h
    rw [h]

/-- A not-found symlink-status probe comes from a failing lstat with a
not-found errno. -/
theorem symlinkStatusR_notFound (fs : Fs) (q : Path) (err : Nat)
    (h : symlinkStatusR fs q = .notFound err) :
    fs.lstat q = .error err ∧ not_found_error err = true := by
  unfold symlinkStatusR at h
  cases hl : fs.lstat q
  case error e2 =>
    rw [hl] at h
    by_cases hnf : not_found_error e2 = true
    · simp [hnf] at h
      subst h
      exact ⟨rfl, hnf⟩
    · simp [hnf] at h
  case ok t2 =>
    rw [hl] at h
    simp at h

/-- When the current element is a plain name and the probe of the grown
result lets the scan continue, one scan step just appends the element. -/
theorem pass_step_cont (fs : Fs) (useEc : Bool) (root result : Path)
    (e : String) (rest : List String)
    (he1 : e ≠ ".") (he2 : e ≠ "..")
    (habs : (result.appendElem e).isAbsolute = true)
    (hc : contOk fs useEc (result.appendElem e)) :
    canonPass fs useEc root (e :: rest) result =
      canonPass fs useEc root rest (result.appendElem e) := by
  rcases hc with ⟨t, hl, hs⟩ | ⟨err, hl, hu, hnf⟩
  · simp [canonPass, if_neg he1, if_neg he2, habs, symlinkStatusR, hl, hs]
  · subst hu
    simp [canonPass, if_neg he1, if_neg he2, habs, symlinkStatusR, hl, hnf]

/-- A failing scan pass never carries a successful result. -/
theorem pass_fail_no_ok (fs : Fs) (useEc : Bool) (root : Path) :
    ∀ (elems : List String) (result : Path) (r : Res Path),
      canonPass fs useEc root elems result = .fail r → ∀ x, r ≠ Res.ok x := by
  intro elems
  induction elems with
  | nil => intro result r h x; simp [canonPass] at h
  | cons e rest ih =>
    intro result r h x
    simp only [canonPass] at h
    split at h
    · exact ih _ _ h x
    split at h
    · exact ih _ _ h x
    split at h
    · exact ih _ _ h x
    split at h
    · -- notFound errno
      split at h
      · cases h; intro hc; cases hc
      · exact ih _ _ h x
    · -- failed errno
      split at h <;> (cases h; intro hc; cases hc)
    · -- probe succeeded
      split at h
      · -- a symlink: read it
        split at h
        · split at h <;> (cases h; intro hc; cases hc)
        · split at h <;> cases h
      · exact ih _ _ h x

/-- Unless the filesystem root itself is a symlink, a pass restart always
produces a rooted new source. -/
theorem pass_restart_rooted (fs : Fs) (useEc : Bool) (root : Path)
    (hroot : fs.lstat Path.rootAbs ≠ .ok FileType.symlink_file) :
    ∀ (elems : List String) (result s : Path),
      canonPass fs useEc root elems result = .restart s → s.hasRoot = true := by
  intro elems
  induction elems with
  | nil => intro result s h; simp [canonPass] at h
  | cons e rest ih =>
    intro result s h
    simp only [canonPass] at h
    split at h
    · exact ih _ _ h
    split at h
    · exact ih _ _ h
    split at h
    · exact ih _ _ h
    rename_i habs
    split at h
    · split at h
      · cases h
      · exact ih _ _ h
    · split at h <;> cases h
    · rename_i t hstat
      split at h
      · rename_i hsym
        subst hsym
        split at h
        · split at h <;> cases h
        · rename_i link hread
          split at h
          · cases h
            rename_i hlabs
            exact appendElems_hasRoot rest link hlabs
          · cases h
            have hr1 : (result.appendElem e).hasRoot = true := by
              revert habs
              unfold Path.isAbsolute
              intro habs
              rcases hx : (result.appendElem e).hasRoot with _ | _
              · rw [hx] at habs; simp at habs
              · rfl
            apply appendElems_hasRoot
            apply concat_hasRoot
            rcases hcs : (result.appendElem e).comps with _ | ⟨c, cs'⟩
            · -- the grown result is the bare root: its probe said symlink
              exfalso
              apply hroot
              have hq : result.appendElem e = Path.rootAbs := by
                rcases hres : result.appendElem e with ⟨rr, rcs⟩
                rw [hres] at hr1 hcs
                simp at hr1 hcs
                simp [Path.rootAbs, hr1, hcs]
              rw [hq] at hstat
              exact symlinkStatusR_okT fs Path.rootAbs _ hstat
            · exact removeFilename_hasRoot _ hr1 (by rw [hcs]; simp)
      · exact ih _ _ h

/-- Clean element lists stay clean after dropping the last element. -/
theorem cleanComps_dropLast (cs : List String) (h : CleanComps cs) :
    CleanComps cs.dropLast :=
  fun e he => h e (List.dropLast_subset cs he)

/-- Probe-continuation of every prefix survives dropping the last
element. -/
theorem prefOk_dropLast (fs : Fs) (useEc : Bool) (cs : List String)
    (h : PrefOk fs useEc cs) : PrefOk fs useEc cs.dropLast := by
  intro k hk
  rw [List.length_dropLast] at hk
  have ht : cs.dropLast.take k = cs.take k := by
    rw [List.dropLast_eq_take, List.take_take]
    congr 1
    omega
  rw [ht]
  exact h k (by omega)

/-- Clean element lists stay clean after appending a clean element. -/
theorem cleanComps_append (cs : List String) (e : String) (h : CleanComps cs)
    (h1 : e ≠ ".") (h2 : e ≠ "..") (h3 : e ≠ "/") :
    CleanComps (cs ++ [e]) := by
  intro x hx
  rcases List.mem_append.1 hx with hx | hx
  · exact h x hx
  · simp at hx
    subst hx
    exact ⟨h1, h2, h3⟩

/-- Probe-continuation of every prefix survives appending an element whose
grown path itself lets the scan continue. -/
theorem prefOk_append (fs : Fs) (useEc : Bool) (cs : List String) (e : String)
    (h : PrefOk fs useEc cs)
    (hc : contOk fs useEc ⟨true, cs ++ [e]⟩) : PrefOk fs useEc (cs ++ [e]) := by
  intro k hk
  simp only [List.length_append, List.length_cons, List.length_nil] at hk
  by_cases hkl : k ≤ cs.length
  · rw [List.take_append_of_le_length hkl]
    exact h k hkl
  · have hk1 : k = cs.length + 1 := by omega
    subst hk1
    rw [List.take_append]
    simpa using hc

/-- On a dot-dot the new accumulated result (guarded by the root) is the
rooted path with the last element dropped. -/
theorem dotdot_result (cs : List String) :
    (if (⟨true, cs⟩ : Path) = Path.rootAbs then (⟨true, cs⟩ : Path)
     else (⟨true, cs⟩ : Path).removeFilename) = ⟨true, cs.dropLast⟩ := by
  cases cs with
  | nil => simp [Path.rootAbs]
  | cons a as => simp [Path.rootAbs, Path.removeFilename]

/-- A scan pass that completes from a rooted, clean, probe-continuable
result completes with a rooted, clean, probe-continuable result. -/
theorem pass_done_invariant (fs : Fs) (useEc : Bool) :
    ∀ (elems cs : List String) (r : Path),
      CleanComps cs → PrefOk fs useEc cs →
      canonPass fs useEc Path.rootAbs elems ⟨true, cs⟩ = .done r →
      ∃ ds, r = ⟨true, ds⟩ ∧ CleanComps ds ∧ PrefOk fs useEc ds := by
  intro elems
  induction elems with
  | nil =>
    intro cs r hclean hpref h
    simp only [canonPass] at h
    cases h
    exact ⟨cs, rfl, hclean, hpref⟩
  | cons e rest ih =>
    intro cs r hclean hpref h
    by_cases he1 : e = "."
    · subst he1
      simp only [canonPass, if_pos rfl] at h
      exact ih cs r hclean hpref h
    by_cases he2 : e = ".."
    · subst he2
      simp only [canonPass, if_neg (by decide : ¬(".." : String) = "."),
        if_pos rfl] at h
      rw [dotdot_result cs] at h
      exact ih cs.dropLast r (cleanComps_dropLast cs hclean)
        (prefOk_dropLast fs useEc cs hpref) h
    by_cases he3 : e = "/"
    · subst he3
      have happ : (⟨true, cs⟩ : Path).appendElem "/" = ⟨true, cs⟩ := by
        simp [Path.appendElem]
      have hcont : contOk fs useEc ⟨true, cs⟩ := by
        have hx := hpref cs.length (Nat.le_refl _)
        simpa using hx
      rw [pass_step_cont fs useEc Path.rootAbs ⟨true, cs⟩ "/" rest he1 he2
        (by rw [happ]; rfl) (by rw [happ]; exact hcont), happ] at h
      exact ih cs r hclean hpref h
    · have happ : (⟨true, cs⟩ : Path).appendElem e = ⟨true, cs ++ [e]⟩ := by
        simp [Path.appendElem, he3]
      simp only [canonPass, if_neg he1, if_neg he2, happ] at h
      rw [if_neg (by simp [Path.isAbsolute])] at h
      split at h
      · -- the probe reported not-found
        rename_i err heq
        split at h
        · cases h
        · rename_i hu
          obtain ⟨hl2, hnf2⟩ := symlinkStatusR_notFound fs _ err heq
          have hcont : contOk fs useEc ⟨true, cs ++ [e]⟩ :=
            Or.inr ⟨err, hl2, by simpa using hu, hnf2⟩
          exact ih (cs ++ [e]) r
            (cleanComps_append cs e hclean he1 he2 he3)
            (prefOk_append fs useEc cs e hpref hcont) h
      · -- the probe failed
        split at h <;> cases h
      · -- the probe succeeded
        rename_i t heq
        split at h
        · -- a symlink: the pass cannot end in done here
          split at h
          · split at h <;> cases h
          · split at h <;> cases h
        · rename_i hsym
          have hl2 := symlinkStatusR_okT fs _ t heq
          have hcont : contOk fs useEc ⟨true, cs ++ [e]⟩ :=
            Or.inl ⟨t, hl2, hsym⟩
          exact ih (cs ++ [e]) r
            (cleanComps_append cs e hclean he1 he2 he3)
            (prefOk_append fs useEc cs e hpref hcont) h

/-- A completing scan pass over a rooted source, started from the freshly
cleared result, yields a rooted result with clean elements whose prefixes
all let the scan continue. -/
theorem pass_done_start (fs : Fs) (useEc : Bool) (source r : Path)
    (hs : source.hasRoot = true)
    (h : canonPass fs useEc Path.rootAbs source.elements Path.emptyP = .done r) :
    ∃ ds, r = ⟨true, ds⟩ ∧ CleanComps ds ∧ PrefOk fs useEc ds := by
  rw [show source.elements = "/" :: source.comps by simp [Path.elements, hs]] at h
  have happ : Path.emptyP.appendElem "/" = (⟨true, []⟩ : Path) := by
    simp [Path.appendElem, Path.emptyP]
  simp only [canonPass, if_neg (by decide : ¬("/" : String) = "."),
    if_neg (by decide : ¬("/" : String) = ".."), happ] at h
  rw [if_neg (by simp [Path.isAbsolute])] at h
  split at h
  · rename_i err heq
    split at h
    · cases h
    · rename_i hu
      obtain ⟨hl2, hnf2⟩ := symlinkStatusR_notFound fs _ err heq
      have hpref0 : PrefOk fs useEc [] := by
        intro k hk
        simp only [List.length_nil, Nat.le_zero] at hk
        subst hk
        exact Or.inr ⟨err, hl2, by simpa using hu, hnf2⟩
      exact pass_done_invariant fs useEc source.comps [] r
        (fun e he => absurd he (List.not_mem_nil e)) hpref0 h
  · split at h <;> cases h
  · rename_i t heq
    split at h
    · split at h
      · split at h <;> cases h
      · split at h <;> cases h
    · rename_i hsym
      have hl2 := symlinkStatusR_okT fs _ t heq
      have hpref0 : PrefOk fs useEc [] := by
        intro k hk
        simp only [List.length_nil, Nat.le_zero] at hk
        subst hk
        exact Or.inl ⟨t, hl2, hsym⟩
      exact pass_done_invariant fs useEc source.comps [] r
        (fun e he => absurd he (List.not_mem_nil e)) hpref0 h

/-- Over a clean element list whose prefixes all let the scan continue,
the scan pass runs to completion accumulating exactly those elements. -/
theorem pass_clean_run (fs : Fs) (useEc : Bool) (cs : List String)
    (hclean : CleanComps cs) (hpref : PrefOk fs useEc cs) :
    ∀ (cs2 cs1 : List String), cs = cs1 ++ cs2 →
      canonPass fs useEc Path.rootAbs cs2 ⟨true, cs1⟩ = .done ⟨true, cs⟩ := by
  intro cs2
  induction cs2 with
  | nil =>
    intro cs1 hsplit
    simp only [canonPass]
    rw [hsplit, List.append_nil]
  | cons e rest ih =>
    intro cs1 hsplit
    have hmem : e ∈ cs := by rw [hsplit]; simp
    obtain ⟨he1, he2, he3⟩ := hclean e hmem
    have happ : (⟨true, cs1⟩ : Path).appendElem e = ⟨true, cs1 ++ [e]⟩ := by
      simp [Path.appendElem, he3]
    have hcont : contOk fs useEc ⟨true, cs1 ++ [e]⟩ := by
      have htake : cs.take (cs1.length + 1) = cs1 ++ [e] := by
        rw [hsplit, List.take_append]
        simp
      have hx := hpref (cs1.length + 1)
        (by rw [hsplit]; simp [List.length_append])
      rwa [htake] at hx
    rw [pass_step_cont fs useEc Path.rootAbs ⟨true, cs1⟩ e rest he1 he2
      (by rw [happ]; rfl) (by rw [happ]; exact hcont), happ]
    exact ih (cs1 ++ [e]) (by rw [hsplit, List.append_assoc]; rfl)

/-- Over a rooted path with clean elements whose prefixes all let the scan
continue, a full scan pass from the cleared result reproduces the path. -/
theorem pass_clean_start (fs : Fs) (useEc : Bool) (cs : List String)
    (hclean : CleanComps cs) (hpref : PrefOk fs useEc cs) :
    canonPass fs useEc Path.rootAbs (Path.elements ⟨true, cs⟩) Path.emptyP =
      .done ⟨true, cs⟩ := by
  rw [show Path.elements ⟨true, cs⟩ = "/" :: cs by simp [Path.elements]]
  have hcont : contOk fs useEc Path.rootAbs := by
    have hx := hpref 0 (by omega)
    simpa [Path.rootAbs] using hx
  rw [pass_step_cont fs useEc Path.rootAbs Path.emptyP "/" cs
    (by decide) (by decide) rfl hcont]
  exact pass_clean_run fs useEc cs hclean hpref cs [] rfl

/-- Unless the filesystem root is a symlink, a successful run of the scan
loop from a rooted source yields a rooted result with clean elements whose
prefixes all let the scan continue. -/
theorem loop_ok_invariant (fs : Fs) (useEc : Bool)
    (hroot : fs.lstat Path.rootAbs ≠ .ok FileType.symlink_file) :
    ∀ (fuel : Nat) (source r : Path), source.hasRoot = true →
      canonLoop fs useEc Path.rootAbs fuel source = .ok r →
      ∃ ds, r = ⟨true, ds⟩ ∧ CleanComps ds ∧ PrefOk fs useEc ds := by
  intro fuel
  induction fuel with
  | zero => intro source r hs h; simp [canonLoop] at h
  | succ n ih =>
    intro source r hs h
    simp only [canonLoop] at h
    cases hp : canonPass fs useEc Path.rootAbs source.elements Path.emptyP <;>
      rw [hp] at h
    · cases h
      exact pass_done_start fs useEc source _ hs hp
    · exact ih _ r (pass_restart_rooted fs useEc Path.rootAbs hroot _ _ _ hp) h
    · exact absurd h (pass_fail_no_ok fs useEc Path.rootAbs _ _ _ hp r)

/-- A successful canonical comes from a successful run of the scan loop on
the absolute source. -/
theorem canonical_ok_loop (fs : Fs) (useEc : Bool) (p base : Path)
    (fuel : Nat) (r : Path)
    (h : canonical fs useEc p base fuel = .ok r) :
    canonLoop fs useEc (sourceOf fs p base).rootPath fuel (sourceOf fs p base) =
      .ok r := by
  simp only [canonical] at h
  cases hst : statusR fs (sourceOf fs p base) <;> rw [hst] at h
  · exact h
  · cases useEc <;> simp at h
  · cases useEc <;> simp at h

/-- absolute over an already-rooted base yields a rooted path. -/
theorem absoluteCore_rooted (absBase q : Path) (h : absBase.hasRoot = true) :
    (absoluteCore absBase q).hasRoot = true := by
  unfold absoluteCore
  split
  · exact h
  · split
    · rename_i hq; exact hq
    · exact concat_hasRoot _ _ h

/-- absolute against a rooted current directory yields a rooted path. -/
theorem absolute_rooted (cwd q base : Path) (h : cwd.hasRoot = true) :
    (absolute cwd q base).hasRoot = true := by
  unfold absolute
  apply absoluteCore_rooted
  by_cases hb : base.isAbsolute = true
  · rw [if_pos hb]
    exact hb
  · rw [if_neg hb]
    exact absoluteCore_rooted cwd base h

/-- With a rooted current directory, the absolute source canonical
resolves is rooted. -/
theorem sourceOf_rooted (fs : Fs) (p base : Path)
    (h : fs.cwd.hasRoot = true) : (sourceOf fs p base).hasRoot = true := by
  unfold sourceOf
  by_cases hp : p.isAbsolute = true
  · rw [if_pos hp]
    exact hp
  · rw [if_neg hp]
    exact absolute_rooted fs.cwd p base h

/-- C9: whenever canonical returns normally (under the OS invariants that
the current directory is absolute and the filesystem root is not a
symlink), the returned path is absolute, so the defensive assertion at the
return point never fires. -/
theorem C9_result_absolute (fs : Fs) (useEc : Bool) (p base : Path)
    (fuel : Nat) (r : Path)
    (hcwd : fs.cwd.isAbsolute = true)
    (hroot : fs.lstat Path.rootAbs ≠ .ok FileType.symlink_file)
    (h : canonical fs useEc p base fuel = .ok r) :
    r.isAbsolute = true := by
  have hsrc : (sourceOf fs p base).hasRoot = true :=
    sourceOf_rooted fs p base hcwd
  have hloop := canonical_ok_loop fs useEc p base fuel r h
  rw [rootPath_rooted _ hsrc] at hloop
  obtain ⟨ds, hr, -, -⟩ := loop_ok_invariant fs useEc hroot fuel _ r hsrc hloop
  rw [hr]
  rfl

/-- C9 witness: the result of a concrete successful canonical run is
absolute. -/
theorem C9_result_absolute_witness : Path.isAbsolute Path.rootAbs = true :=
  C9_result_absolute fs1 true ⟨true, ["..", "..", ".."]⟩ Path.emptyP 2
    Path.rootAbs rfl (by decide) (by decide)

/-- C4: canonical is idempotent: a successful canonical result (under the
OS invariants that the current directory is absolute, the filesystem root
is not a symlink, and the produced path exists) re-canonicalizes to
itself, lexically identically, in a single scan pass. -/
theorem C4_canonical_idempotent (fs : Fs) (useEc : Bool) (p base : Path)
    (fuel : Nat) (r : Path) (t : FileType)
    (hcwd : fs.cwd.isAbsolute = true)
    (hroot : fs.lstat Path.rootAbs ≠ .ok FileType.symlink_file)
    (h : canonical fs useEc p base fuel = .ok r)
    (hex : fs.stat r = .ok t) :
    ∀ fuel2 : Nat, canonical fs useEc r base (fuel2 + 1) = .ok r := by
  intro fuel2
  have hsrc : (sourceOf fs p base).hasRoot = true :=
    sourceOf_rooted fs p base hcwd
  have hloop := canonical_ok_loop fs useEc p base fuel r h
  rw [rootPath_rooted _ hsrc] at hloop
  obtain ⟨ds, hr, hclean, hpref⟩ :=
    loop_ok_invariant fs useEc hroot fuel _ r hsrc hloop
  subst hr
  have hsrc2 : sourceOf fs ⟨true, ds⟩ base = ⟨true, ds⟩ := by
    simp [sourceOf, Path.isAbsolute]
  have hst2 : statusR fs ⟨true, ds⟩ = .okT t := by
    simp [statusR, hex]
  have hpass2 : canonPass fs useEc (Path.rootPath ⟨true, ds⟩)
      (Path.elements ⟨true, ds⟩) Path.emptyP = .done ⟨true, ds⟩ :=
    pass_clean_start fs useEc ds hclean hpref
  simp only [canonical, hsrc2, hst2, canonLoop, hpass2]

/-- C4 witness: on fs4, canonical of the existing directory /a is /a, and
re-canonicalizing that result returns it unchanged. -/
theorem C4_canonical_idempotent_witness :
    canonical fs4 true ⟨true, ["a"]⟩ Path.emptyP 1 = .ok ⟨true, ["a"]⟩ :=
  C4_canonical_idempotent fs4 true ⟨true, ["a"]⟩ Path.emptyP 3 ⟨true, ["a"]⟩
    FileType.directory_file rfl (by decide) (by decide) (by decide) 0

end BoostFs
